import Mathlib

/-!
Verification of the `events-app` dynamic query construction layer.

This file gives a shallow embedding of the repository's record-descriptor
metadata (`data/models/models.go`) and of the query clause builder
(`data/repository/model_query.go`), and proves the specification claims
about them.

Modelling conventions:
* A Go `map[string]string` of query parameters is modelled as an association
  list `List (String × String)`; iterating the list models one iteration
  order of the Go map (Go map iteration order is unspecified, so theorems
  quantify over the list).
* The tag map returned by `MapJsonTagsToDB` is modelled as a total function
  `String → String` returning `""` for absent keys, which is exactly the Go
  map-indexing behaviour (`jsonMap[key]` yields the zero value `""`).
* Fallible Go functions returning `(..., error)` are modelled with
  `Except String`; the Go code returns zero values alongside a non-nil
  error, so the error case carries no partial result.
* Dynamically typed bind values (`[]interface{}`) are modelled by `GoVal`.
  The `float` constructor records the source text of the value; the claims
  under verification depend only on which coercion branch was taken, never
  on the numeric value of the resulting float64.
-/

namespace EventsApp

/-- A dynamically typed SQL bind value, as produced by
`convertValueIfNumeric` and the pagination code: a Go `int`, a Go `float64`
(identified by the text it was parsed from), or a raw string. -/
inductive GoVal where
  | int (n : Int)
  | float (source : String)
  | str (s : String)
deriving DecidableEq, Repr

/-- Character-level model of Go `strings.Split(value, ",")`: splits on every
comma and never returns an empty list (splitting `""` yields `[""]`). -/
def splitCommaAux : List Char → List Char → List String
  | [], acc => [String.mk acc.reverse]
  | c :: cs, acc =>
    if c = ',' then String.mk acc.reverse :: splitCommaAux cs []
    else splitCommaAux cs (c :: acc)

/-- Model of Go `strings.Split(s, ",")`. -/
def splitComma (s : String) : List String := splitCommaAux s.data []

/-- Model of Go `strings.HasSuffix`. The operator suffixes of the query
language are ASCII, so a character-level suffix test agrees with Go's
byte-level one. -/
def strEndsWith (s t : String) : Bool := t.data.isSuffixOf s.data

/-- Model of Go `strings.TrimSuffix`: drops `t` from the end of `s` when it
is a suffix, otherwise returns `s` unchanged. -/
def trimSuffix (s t : String) : String :=
  if strEndsWith s t then String.mk (s.data.take (s.data.length - t.data.length)) else s

/-- Model of Go `strings.HasPrefix(s, "-")`. -/
def strStartsWithDash (s : String) : Bool :=
  match s.data with
  | c :: _ => c = '-'
  | [] => false

/-- Model of Go `strings.TrimPrefix(s, "-")`. -/
def trimLeadingDash (s : String) : String :=
  match s.data with
  | c :: cs => if c = '-' then String.mk cs else s
  | [] => s

/-- Numeric value of a list of decimal digit characters. -/
def digitsToNat (l : List Char) : Nat :=
  l.foldl (fun a c => 10 * a + (c.toNat - 48)) 0

/-- Model of Go `strconv.Atoi`: an optional sign followed by at least one
decimal digit, with the result required to fit in a signed 64-bit `int`
(Go reports `ErrRange` otherwise, which the call sites treat as failure). -/
def goAtoi (s : String) : Option Int :=
  let p : Int × List Char :=
    match s.data with
    | '+' :: rest => (1, rest)
    | '-' :: rest => (-1, rest)
    | l => (1, l)
  if p.2.isEmpty then none
  else if p.2.all Char.isDigit then
    let v : Int := p.1 * (digitsToNat p.2 : Int)
    if -(2 ^ 63) ≤ v ∧ v ≤ 2 ^ 63 - 1 then some v else none
  else none

/-- Longest digit run at the head of a character list, and the rest. -/
def takeDigits : List Char → List Char × List Char
  | [] => ([], [])
  | c :: cs =>
    if c.isDigit then
      let p := takeDigits cs
      (c :: p.1, p.2)
    else ([], c :: cs)

/-- Drops one leading sign character. -/
def dropSign : List Char → List Char
  | '+' :: r => r
  | '-' :: r => r
  | l => l

/-- Consumes a decimal mantissa `digits [. digits]` (at least one digit
overall) and returns the remaining characters, or `none` if no valid
mantissa starts the list. -/
def mantissaRest (l : List Char) : Option (List Char) :=
  let p1 := takeDigits l
  match p1.2 with
  | '.' :: r2 =>
    let p2 := takeDigits r2
    if p1.1.isEmpty ∧ p2.1.isEmpty then none else some p2.2
  | _ => if p1.1.isEmpty then none else some p1.2

/-- Accepts an optional exponent part `(e|E) [sign] digits` ending the
value. -/
def exponentOk : List Char → Bool
  | [] => true
  | c :: r =>
    if c = 'e' ∨ c = 'E' then
      let r := dropSign r
      !r.isEmpty && r.all Char.isDigit
    else false

/-- Model of the success condition of Go `strconv.ParseFloat(s, 64)`:
optional sign, then `inf`/`infinity`/`nan` (any case) or a decimal mantissa
with optional exponent. The model omits hexadecimal floats, digit-group
underscores and the out-of-range (`ErrRange`) failure; every claim proved
below is parametric in this predicate. -/
def goParseFloatOk (s : String) : Bool :=
  let l := dropSign s.data
  let low := l.map Char.toLower
  if low = "inf".data ∨ low = "infinity".data ∨ low = "nan".data then true
  else
    match mantissaRest l with
    | none => false
    | some rest => exponentOk rest

/-- Embedding of `convertValueIfNumeric` (model_query.go:209–216): try an
integer parse, else a float parse, else keep the raw string. -/
def convertValueIfNumeric (value : String) : GoVal :=
  match goAtoi value with
  | some intValue => GoVal.int intValue
  | none => if goParseFloatOk value then GoVal.float value else GoVal.str value

/-- One struct field of a persisted record type: Go field name and its
`json`, `db` and `readOnly` struct tags, in declaration order inside
`Model.fields`. -/
structure Field where
  name : String
  jsonTag : String
  dbTag : String
  readOnly : Bool
deriving DecidableEq, Repr

/-- A persisted record type: table name and fields in declaration order. -/
structure Model where
  tableName : String
  fields : List Field
deriving DecidableEq, Repr

/-- The `Event` struct of `data/models/event.go`, with its tags. -/
def Event : Model :=
  { tableName := "events"
    fields :=
      [ ⟨"ID", "id", "id", true⟩
      , ⟨"UserID", "userId", "user_id", false⟩
      , ⟨"Name", "name", "name", false⟩
      , ⟨"Description", "description", "description", false⟩
      , ⟨"StartDate", "startDate", "start_date", false⟩
      , ⟨"CreatedAt", "createdAt", "created_at", true⟩
      , ⟨"MaxAttendees", "maxAttendees", "max_attendees", false⟩ ] }

/-- Embedding of `MapJsonTagsToDB` (models.go:167–181): builds the
json-tag → db-tag map field by field (later fields overwrite earlier ones,
as Go map assignment does). Absent keys map to `""`, the Go zero value. -/
def MapJsonTagsToDB (m : Model) : String → String :=
  m.fields.foldl (fun tagMap field => fun k => if k = field.jsonTag then field.dbTag else tagMap k)
    (fun _ => "")

/-- Embedding of `GetColumnNames` (models.go:141–164): db tags of the fields
in declaration order, skipping read-only fields when asked to. -/
def GetColumnNames (m : Model) (excludeReadOnlyFields : Bool) : List String :=
  (m.fields.filter fun field => !(excludeReadOnlyFields && field.readOnly)).map Field.dbTag

/-- Embedding of the field-slot list built by `ScanRowToModel`
(models.go:74–91): one addressable slot per struct field, in declaration
order; each slot is identified here by its field. -/
def ScanRowToModelSlots (m : Model) : List Field := m.fields

/-- Embedding of the SELECT statement text built by `GetModelByID`
(repo.go:143–154). -/
def GetModelByIDQuery (m : Model) : String :=
  "SELECT " ++ String.intercalate ", " (GetColumnNames m false) ++ " FROM " ++
    m.tableName ++ " WHERE id = $1"

/-- Go map indexing `queryParams[key]` on the association-list model:
value of the first matching key, `""` when absent. -/
def mapGet (queryParams : List (String × String)) (key : String) : String :=
  match queryParams.find? (fun p => p.1 == key) with
  | some p => p.2
  | none => ""

/-- Go comma-ok map indexing `v, ok := queryParams[key]`. -/
def mapGetOpt (queryParams : List (String × String)) (key : String) : Option String :=
  (queryParams.find? (fun p => p.1 == key)).map Prod.snd

/-- Embedding of `validateQueryParam` (model_query.go:218–223): `some`
carries the Go error message, `none` is the nil error. -/
def validateQueryParam (key : String) (jsonMap : String → String) : Option String :=
  if jsonMap key = "" then some ("invalid query parameter: " ++ key) else none

/-- The operator/stripped-key/modified-value triple computed by the
suffix-dispatch chain at the head of `parseOperatorAndKey`
(model_query.go:100–132). -/
def parseSuffix (key value : String) : String × String × String :=
  if strEndsWith key "_ne" then ("!=", trimSuffix key "_ne", value)
  else if strEndsWith key "_lt" then ("<", trimSuffix key "_lt", value)
  else if strEndsWith key "_gt" then (">", trimSuffix key "_gt", value)
  else if strEndsWith key "_lte" then ("<=", trimSuffix key "_lte", value)
  else if strEndsWith key "_gte" then (">=", trimSuffix key "_gte", value)
  else if strEndsWith key "_contains" then ("LIKE", trimSuffix key "_contains", "%" ++ value ++ "%")
  else if strEndsWith key "_anyOf" then ("IN", trimSuffix key "_anyOf", value)
  else ("=", key, value)

/-- The operator-suffix-stripped form of a filter key: the key that
`parseOperatorAndKey` validates and maps through the tag map. -/
def stripOperatorSuffix (key : String) : String := (parseSuffix key "").2.1

/-- Embedding of `parseOperatorAndKey` (model_query.go:100–142): strips the
operator suffix, validates the stripped key against the tag map, and
returns `(operator, dbColumn, modifiedValue)`. -/
def parseOperatorAndKey (key value : String) (jsonMap : String → String) :
    Except String (String × String × String) :=
  let p := parseSuffix key value
  match validateQueryParam p.2.1 jsonMap with
  | some e => Except.error e
  | none => Except.ok (p.1, jsonMap p.2.1, p.2.2)

/-- The placeholder-and-bind loop inside `handleInOperator`
(model_query.go:152–158): appends one `$n` placeholder and one coerced
value per list element, incrementing the placeholder index. -/
def inLoop : List String → Nat → List String → List GoVal → List String × List GoVal × Nat
  | [], phIndex, placeholders, values => (placeholders, values, phIndex)
  | v :: rest, phIndex, placeholders, values =>
    inLoop rest (phIndex + 1) (placeholders ++ ["$" ++ toString phIndex])
      (values ++ [convertValueIfNumeric v])

/-- Embedding of `handleInOperator` (model_query.go:148–168). -/
def handleInOperator (key value : String) (phIndex : Nat) (whereClauseParts : List String)
    (values : List GoVal) (jsonMap : String → String) :
    Except String (List String × List GoVal × Nat) :=
  let anyOfValuesList := splitComma value
  match inLoop anyOfValuesList phIndex [] values with
  | (placeholders, values, phIndex) =>
    let key := trimSuffix key "_anyOf"
    match validateQueryParam key jsonMap with
    | some e => Except.error e
    | none =>
      Except.ok
        (whereClauseParts ++
          [jsonMap key ++ " IN (" ++ String.intercalate "," placeholders ++ ")"],
         values, phIndex)

/-- The `for key, value := range queryParams` loop of `buildWhereClause`
(model_query.go:58–87), iterating the association list in order. -/
def whereLoop (jsonMap : String → String) :
    List (String × String) → List String → List GoVal → Nat →
    Except String (List String × List GoVal × Nat)
  | [], whereClauseParts, values, phIndex => Except.ok (whereClauseParts, values, phIndex)
  | (key, value) :: rest, whereClauseParts, values, phIndex =>
    if key = "sortBy" ∨ key = "limit" ∨ key = "offset" then
      whereLoop jsonMap rest whereClauseParts values phIndex
    else
      match parseOperatorAndKey key value jsonMap with
      | Except.error e => Except.error e
      | Except.ok (operator, dbColumn, value) =>
        if operator = "IN" then
          match handleInOperator key value phIndex whereClauseParts values jsonMap with
          | Except.error e => Except.error e
          | Except.ok (whereClauseParts, values, phIndex) =>
            whereLoop jsonMap rest whereClauseParts values phIndex
        else
          whereLoop jsonMap rest
            (whereClauseParts ++ [dbColumn ++ " " ++ operator ++ " $" ++ toString phIndex])
            (values ++ [convertValueIfNumeric value]) (phIndex + 1)

/-- Embedding of `buildWhereClause` (model_query.go:52–95). -/
def buildWhereClause (queryParams : List (String × String)) (phIndex : Nat)
    (jsonMap : String → String) : Except String (String × List GoVal × Nat) :=
  match whereLoop jsonMap queryParams [] [] phIndex with
  | Except.error e => Except.error e
  | Except.ok (whereClauseParts, values, phIndex) =>
    let whereClause :=
      if whereClauseParts.length > 0 then "WHERE " ++ String.intercalate " AND " whereClauseParts
      else ""
    Except.ok (whereClause, values, phIndex)

/-- Embedding of `buildSortingClause` (model_query.go:170–187). An absent
`sortBy` reads as `""` from the Go map, exactly as `mapGet` does here. -/
def buildSortingClause (queryParams : List (String × String)) (jsonMap : String → String) :
    Except String (String × String) :=
  let sort := mapGet queryParams "sortBy"
  let p : String × String :=
    if strStartsWithDash sort then ("DESC", trimLeadingDash sort) else ("ASC", sort)
  let sort := if p.2 = "" then "id" else p.2
  match validateQueryParam sort jsonMap with
  | some _ => Except.error ("invalid sort value: " ++ sort)
  | none => Except.ok (jsonMap sort, p.1)

/-- The `limit` half of `buildPaginationClause` (model_query.go:190–198):
default 10, else `strconv.Atoi` of the present value. The Go error message
suffixes the wrapped `strconv` error, elided here. -/
def paginationLimit (queryParams : List (String × String)) : Except String Int :=
  match mapGetOpt queryParams "limit" with
  | none => Except.ok 10
  | some l =>
    match goAtoi l with
    | none => Except.error "pagination err; limit must be a number"
    | some v => Except.ok v

/-- The `offset` half of `buildPaginationClause` (model_query.go:199–205):
default 0, else `strconv.Atoi` of the present value. -/
def paginationOffset (queryParams : List (String × String)) : Except String Int :=
  match mapGetOpt queryParams "offset" with
  | none => Except.ok 0
  | some o =>
    match goAtoi o with
    | none => Except.error "pagination err; offset must be a number"
    | some v => Except.ok v

/-- Embedding of `buildPaginationClause` (model_query.go:189–207). -/
def buildPaginationClause (queryParams : List (String × String)) : Except String (Int × Int) :=
  match paginationLimit queryParams with
  | Except.error e => Except.error e
  | Except.ok limit =>
    match paginationOffset queryParams with
    | Except.error e => Except.error e
    | Except.ok offset => Except.ok (limit, offset)

/-- Embedding of `buildQueryClauses` (model_query.go:13–45): WHERE clause,
then ORDER BY clause, then LIMIT/OFFSET with placeholder numbers continuing
from the WHERE placeholders, the limit and offset values appended to the
bind list. -/
def buildQueryClauses (queryParams : List (String × String)) (m : Model) :
    Except String (String × List GoVal) :=
  let jsonMap := MapJsonTagsToDB m
  match buildWhereClause queryParams 1 jsonMap with
  | Except.error e => Except.error e
  | Except.ok (whereClause, values, placeholderIndex) =>
    match buildSortingClause queryParams jsonMap with
    | Except.error e => Except.error e
    | Except.ok (sort, order) =>
      let orderClause := "ORDER BY " ++ sort ++ " " ++ order
      match buildPaginationClause queryParams with
      | Except.error e => Except.error e
      | Except.ok (limit, offset) =>
        let paginationClause :=
          "LIMIT $" ++ toString placeholderIndex ++ " OFFSET $" ++
            toString (placeholderIndex + 1)
        let values := values ++ [GoVal.int limit, GoVal.int offset]
        let clauses :=
          if whereClause ≠ "" then
            whereClause ++ " " ++ orderClause ++ " " ++ paginationClause
          else orderClause ++ " " ++ paginationClause
        Except.ok (clauses, values)

/-! ### Specification-side vocabulary -/

/-- The reserved query keys that are never filters. -/
def reservedKeys : List String := ["sortBy", "limit", "offset"]

/-- A 1-indexed positional bind placeholder token. -/
def placeholder (n : Nat) : String := "$" ++ toString n

/-- Contiguous placeholder tokens: `k` of them starting at `$ph`. -/
def placeholdersFrom : Nat → Nat → List String
  | _, 0 => []
  | ph, k + 1 => ("$" ++ toString ph) :: placeholdersFrom (ph + 1) k

/-- The fixed binary SQL comparison operators the clause builder can emit. -/
def sqlBinOps : List String := ["=", "!=", "<", ">", "<=", ">=", "LIKE"]

/-- A column identifier taken from the trusted external-to-column mapping:
it is the image of some external key and is a real (non-empty) column. -/
def TrustedColumn (jsonMap : String → String) (col : String) : Prop :=
  col ≠ "" ∧ ∃ k, jsonMap k = col

/-- A WHERE fragment built exclusively from a trusted column identifier,
a fixed SQL operator and numeric placeholder tokens — never from a
query-parameter value string. -/
inductive TrustedFragment (jsonMap : String → String) : String → Prop where
  | binop (col op : String) (n : Nat) (hcol : TrustedColumn jsonMap col)
      (hop : op ∈ sqlBinOps) :
      TrustedFragment jsonMap (col ++ " " ++ op ++ " $" ++ toString n)
  | inop (col : String) (ph k : Nat) (hcol : TrustedColumn jsonMap col) :
      TrustedFragment jsonMap
        (col ++ " IN (" ++ String.intercalate "," (placeholdersFrom ph k) ++ ")")

/-- A bind value derived from some query-parameter value: the coercion of
the value itself, of its `LIKE` wrapping, or of one of its comma-separated
elements. -/
def BindDerived (queryParams : List (String × String)) (x : GoVal) : Prop :=
  ∃ p ∈ queryParams,
    x = convertValueIfNumeric p.2 ∨ x = convertValueIfNumeric ("%" ++ p.2 ++ "%") ∨
      ∃ e ∈ splitComma p.2, x = convertValueIfNumeric e

/-- Modelled from the spec: the single-filter WHERE plan prescribed by the
operator-suffix table of spec §4.2 — fragment text, bind values (one per
`_anyOf` element, each independently coerced), and next placeholder
index — used as the refinement target for the operator-table claim. -/
def specFilterPlan (key value : String) (jsonMap : String → String) (ph : Nat) :
    String × List GoVal × Nat :=
  if strEndsWith key "_ne" then
    (jsonMap (trimSuffix key "_ne") ++ " != $" ++ toString ph,
     [convertValueIfNumeric value], ph + 1)
  else if strEndsWith key "_lt" then
    (jsonMap (trimSuffix key "_lt") ++ " < $" ++ toString ph,
     [convertValueIfNumeric value], ph + 1)
  else if strEndsWith key "_gt" then
    (jsonMap (trimSuffix key "_gt") ++ " > $" ++ toString ph,
     [convertValueIfNumeric value], ph + 1)
  else if strEndsWith key "_lte" then
    (jsonMap (trimSuffix key "_lte") ++ " <= $" ++ toString ph,
     [convertValueIfNumeric value], ph + 1)
  else if strEndsWith key "_gte" then
    (jsonMap (trimSuffix key "_gte") ++ " >= $" ++ toString ph,
     [convertValueIfNumeric value], ph + 1)
  else if strEndsWith key "_contains" then
    (jsonMap (trimSuffix key "_contains") ++ " LIKE $" ++ toString ph,
     [convertValueIfNumeric ("%" ++ value ++ "%")], ph + 1)
  else if strEndsWith key "_anyOf" then
    (jsonMap (trimSuffix key "_anyOf") ++ " IN (" ++
       String.intercalate "," (placeholdersFrom ph (splitComma value).length) ++ ")",
     (splitComma value).map convertValueIfNumeric, ph + (splitComma value).length)
  else (jsonMap key ++ " = $" ++ toString ph, [convertValueIfNumeric value], ph + 1)

/-- The key that `buildSortingClause` effectively sorts by: the `sortBy`
value with a leading `-` removed, defaulting to `id` when empty. -/
def effectiveSortKey (sortBy : String) : String :=
  let s := if strStartsWithDash sortBy then trimLeadingDash sortBy else sortBy
  if s = "" then "id" else s

/-! ### String helper lemmas -/

theorem strDataAppend (s t : String) : (s ++ t).data = s.data ++ t.data := by
  cases s
  cases t
  rfl

theorem strAppendNeNil (s t : String) (h : s.data ≠ []) : s ++ t ≠ "" := by
  intro he
  have hd : (s ++ t).data = ([] : List Char) := by rw [he]
  rw [strDataAppend, List.append_eq_nil] at hd
  exact h hd.1

theorem intercalate_singleton (sep f : String) : String.intercalate sep [f] = f := by
  simp [String.intercalate, String.intercalate.go]

/-! ### Helper lemmas about the suffix-dispatch chain -/

theorem parseSuffix_strip (key value : String) :
    (parseSuffix key value).2.1 = stripOperatorSuffix key := by
  unfold stripOperatorSuffix parseSuffix
  split_ifs <;> rfl

theorem parseSuffix_fst (key value : String) :
    (parseSuffix key value).1 = "IN" ∨ (parseSuffix key value).1 ∈ sqlBinOps := by
  unfold parseSuffix
  split_ifs <;> simp [sqlBinOps]

theorem parseSuffix_val (key value : String) :
    (parseSuffix key value).2.2 = value ∨ (parseSuffix key value).2.2 = "%" ++ value ++ "%" := by
  unfold parseSuffix
  split_ifs <;> simp

theorem parseSuffix_IN (key value : String) (h : (parseSuffix key value).1 = "IN") :
    (parseSuffix key value).2.1 = trimSuffix key "_anyOf" ∧
      (parseSuffix key value).2.2 = value := by
  unfold parseSuffix at h ⊢
  split_ifs at h ⊢ <;> first | exact ⟨rfl, rfl⟩ | simp at h

theorem parseOperatorAndKey_eq (key value : String) (jm : String → String) :
    parseOperatorAndKey key value jm =
      if jm (stripOperatorSuffix key) = "" then
        Except.error ("invalid query parameter: " ++ stripOperatorSuffix key)
      else Except.ok ((parseSuffix key value).1, jm (stripOperatorSuffix key),
        (parseSuffix key value).2.2) := by
  simp only [parseOperatorAndKey, validateQueryParam, parseSuffix_strip]
  split_ifs <;> rfl

/-! ### Helper lemmas about the WHERE-clause loop -/

theorem inLoop_eq (l : List String) (ph : Nat) (acc : List String) (vals : List GoVal) :
    inLoop l ph acc vals =
      (acc ++ placeholdersFrom ph l.length, vals ++ l.map convertValueIfNumeric,
       ph + l.length) := by
  induction l generalizing ph acc vals with
  | nil => simp [inLoop, placeholdersFrom]
  | cons v rest ih =>
    simp only [inLoop, ih, placeholdersFrom, List.length_cons, List.map_cons, Prod.mk.injEq,
      List.append_assoc, List.singleton_append]
    exact ⟨trivial, trivial, by omega⟩

theorem handleInOperator_eq_ok (key value : String) (ph : Nat) (parts : List String)
    (vals : List GoVal) (jm : String → String) (hc : ¬ jm (trimSuffix key "_anyOf") = "") :
    handleInOperator key value ph parts vals jm =
      Except.ok
        (parts ++ [jm (trimSuffix key "_anyOf") ++ " IN (" ++
           String.intercalate "," (placeholdersFrom ph (splitComma value).length) ++ ")"],
         vals ++ (splitComma value).map convertValueIfNumeric,
         ph + (splitComma value).length) := by
  simp [handleInOperator, inLoop_eq, validateQueryParam, hc]

theorem whereLoop_cons_reserved (jm : String → String) (key value : String)
    (rest : List (String × String)) (parts : List String) (vals : List GoVal) (ph : Nat)
    (hres : key = "sortBy" ∨ key = "limit" ∨ key = "offset") :
    whereLoop jm ((key, value) :: rest) parts vals ph = whereLoop jm rest parts vals ph := by
  rw [whereLoop, if_pos hres]

theorem whereLoop_cons_bad (jm : String → String) (key value : String)
    (rest : List (String × String)) (parts : List String) (vals : List GoVal) (ph : Nat)
    (hres : ¬(key = "sortBy" ∨ key = "limit" ∨ key = "offset"))
    (hk : jm (stripOperatorSuffix key) = "") :
    whereLoop jm ((key, value) :: rest) parts vals ph =
      Except.error ("invalid query parameter: " ++ stripOperatorSuffix key) := by
  rw [whereLoop, if_neg hres, parseOperatorAndKey_eq, if_pos hk]

theorem whereLoop_cons_in (jm : String → String) (key value : String)
    (rest : List (String × String)) (parts : List String) (vals : List GoVal) (ph : Nat)
    (hres : ¬(key = "sortBy" ∨ key = "limit" ∨ key = "offset"))
    (hk : ¬ jm (stripOperatorSuffix key) = "") (hin : (parseSuffix key value).1 = "IN") :
    whereLoop jm ((key, value) :: rest) parts vals ph =
      whereLoop jm rest
        (parts ++ [jm (trimSuffix key "_anyOf") ++ " IN (" ++
          String.intercalate "," (placeholdersFrom ph (splitComma value).length) ++ ")"])
        (vals ++ (splitComma value).map convertValueIfNumeric)
        (ph + (splitComma value).length) := by
  have hks := parseSuffix_IN key value hin
  have hst : stripOperatorSuffix key = trimSuffix key "_anyOf" := by
    rw [← parseSuffix_strip key value, hks.1]
  rw [whereLoop, if_neg hres, parseOperatorAndKey_eq, if_neg hk]
  simp only [hin, hks.2, if_pos]
  rw [handleInOperator_eq_ok key value ph parts vals jm (by rw [← hst]; exact hk)]

theorem whereLoop_cons_binop (jm : String → String) (key value : String)
    (rest : List (String × String)) (parts : List String) (vals : List GoVal) (ph : Nat)
    (hres : ¬(key = "sortBy" ∨ key = "limit" ∨ key = "offset"))
    (hk : ¬ jm (stripOperatorSuffix key) = "") (hin : ¬ (parseSuffix key value).1 = "IN") :
    whereLoop jm ((key, value) :: rest) parts vals ph =
      whereLoop jm rest
        (parts ++ [jm (stripOperatorSuffix key) ++ " " ++ (parseSuffix key value).1 ++ " $" ++
          toString ph])
        (vals ++ [convertValueIfNumeric ((parseSuffix key value).2.2)]) (ph + 1) := by
  rw [whereLoop, if_neg hres, parseOperatorAndKey_eq, if_neg hk]
  simp [hin]

/-! ### Invariants of the WHERE-clause loop and clause assembly -/

theorem whereLoop_ok (jm : String → String) (l : List (String × String)) :
    ∀ (parts : List String) (vals : List GoVal) (ph : Nat) (P : List String) (V : List GoVal)
      (ph' : Nat), whereLoop jm l parts vals ph = Except.ok (P, V, ph') →
      ∃ dP dV, P = parts ++ dP ∧ V = vals ++ dV ∧ ph' = ph + dV.length ∧
        (∀ f ∈ dP, TrustedFragment jm f) ∧ ∀ x ∈ dV, BindDerived l x := by
  induction l with
  | nil =>
    intro parts vals ph P V ph' h
    simp only [whereLoop, Except.ok.injEq, Prod.mk.injEq] at h
    obtain ⟨h1, h2, h3⟩ := h
    exact ⟨[], [], by simp [h1], by simp [h2], by simp [h3], by simp, by simp⟩
  | cons kv rest ih =>
    obtain ⟨key, value⟩ := kv
    intro parts vals ph P V ph' h
    by_cases hres : key = "sortBy" ∨ key = "limit" ∨ key = "offset"
    · rw [whereLoop_cons_reserved _ _ _ _ _ _ _ hres] at h
      obtain ⟨dP, dV, h1, h2, h3, h4, h5⟩ := ih parts vals ph P V ph' h
      refine ⟨dP, dV, h1, h2, h3, h4, fun x hx => ?_⟩
      obtain ⟨p, hp, hx'⟩ := h5 x hx
      exact ⟨p, List.mem_cons_of_mem _ hp, hx'⟩
    · by_cases hk : jm (stripOperatorSuffix key) = ""
      · rw [whereLoop_cons_bad _ _ _ _ _ _ _ hres hk] at h
        exact absurd h (by simp)
      · by_cases hin : (parseSuffix key value).1 = "IN"
        · rw [whereLoop_cons_in _ _ _ _ _ _ _ hres hk hin] at h
          obtain ⟨dP, dV, h1, h2, h3, h4, h5⟩ := ih _ _ _ _ _ _ h
          have hst : stripOperatorSuffix key = trimSuffix key "_anyOf" := by
            rw [← parseSuffix_strip key value, (parseSuffix_IN key value hin).1]
          refine ⟨(jm (trimSuffix key "_anyOf") ++ " IN (" ++
              String.intercalate "," (placeholdersFrom ph (splitComma value).length) ++ ")") :: dP,
            (splitComma value).map convertValueIfNumeric ++ dV, ?_, ?_, ?_, ?_, ?_⟩
          · rw [h1]; simp
          · rw [h2]; simp
          · rw [h3]; simp only [List.length_append, List.length_map]; omega
          · intro f hf
            rcases List.mem_cons.mp hf with hf | hf
            · subst hf
              exact TrustedFragment.inop _ _ _ ⟨by rw [← hst]; exact hk, ⟨_, rfl⟩⟩
            · exact h4 f hf
          · intro x hx
            rcases List.mem_append.mp hx with hx | hx
            · obtain ⟨e, he, hxe⟩ := List.mem_map.mp hx
              exact ⟨(key, value), List.mem_cons_self _ _, Or.inr (Or.inr ⟨e, he, hxe.symm⟩)⟩
            · obtain ⟨p, hp, hx'⟩ := h5 x hx
              exact ⟨p, List.mem_cons_of_mem _ hp, hx'⟩
        · rw [whereLoop_cons_binop _ _ _ _ _ _ _ hres hk hin] at h
          obtain ⟨dP, dV, h1, h2, h3, h4, h5⟩ := ih _ _ _ _ _ _ h
          refine ⟨(jm (stripOperatorSuffix key) ++ " " ++ (parseSuffix key value).1 ++ " $" ++
              toString ph) :: dP,
            convertValueIfNumeric ((parseSuffix key value).2.2) :: dV, ?_, ?_, ?_, ?_, ?_⟩
          · rw [h1]; simp
          · rw [h2]; simp
          · rw [h3]; simp only [List.length_cons]; omega
          · intro f hf
            rcases List.mem_cons.mp hf with hf | hf
            · subst hf
              exact TrustedFragment.binop _ _ ph ⟨hk, ⟨_, rfl⟩⟩
                ((parseSuffix_fst key value).resolve_left hin)
            · exact h4 f hf
          · intro x hx
            rcases List.mem_cons.mp hx with hx | hx
            · rcases parseSuffix_val key value with hv | hv
              · exact ⟨(key, value), List.mem_cons_self _ _, Or.inl (by rw [hx, hv])⟩
              · exact ⟨(key, value), List.mem_cons_self _ _, Or.inr (Or.inl (by rw [hx, hv]))⟩
            · obtain ⟨p, hp, hx'⟩ := h5 x hx
              exact ⟨p, List.mem_cons_of_mem _ hp, hx'⟩
theorem whereLoop_err (jm : String → String) (l : List (String × String)) :
    ∀ (parts : List String) (vals : List GoVal) (ph : Nat) (e : String),
      whereLoop jm l parts vals ph = Except.error e →
      ∃ k v, (k, v) ∈ l ∧ ¬(k = "sortBy" ∨ k = "limit" ∨ k = "offset") ∧
        jm (stripOperatorSuffix k) = "" ∧
        e = "invalid query parameter: " ++ stripOperatorSuffix k := by
  induction l with
  | nil =>
    intro parts vals ph e h
    simp [whereLoop] at h
  | cons kv rest ih =>
    obtain ⟨key, value⟩ := kv
    intro parts vals ph e h
    by_cases hres : key = "sortBy" ∨ key = "limit" ∨ key = "offset"
    · rw [whereLoop_cons_reserved _ _ _ _ _ _ _ hres] at h
      obtain ⟨k, v, hm, h1, h2, h3⟩ := ih _ _ _ _ h
      exact ⟨k, v, List.mem_cons_of_mem _ hm, h1, h2, h3⟩
    · by_cases hk : jm (stripOperatorSuffix key) = ""
      · rw [whereLoop_cons_bad _ _ _ _ _ _ _ hres hk] at h
        simp only [Except.error.injEq] at h
        exact ⟨key, value, List.mem_cons_self _ _, hres, hk, h.symm⟩
      · by_cases hin : (parseSuffix key value).1 = "IN"
        · rw [whereLoop_cons_in _ _ _ _ _ _ _ hres hk hin] at h
          obtain ⟨k, v, hm, h1, h2, h3⟩ := ih _ _ _ _ h
          exact ⟨k, v, List.mem_cons_of_mem _ hm, h1, h2, h3⟩
        · rw [whereLoop_cons_binop _ _ _ _ _ _ _ hres hk hin] at h
          obtain ⟨k, v, hm, h1, h2, h3⟩ := ih _ _ _ _ h
          exact ⟨k, v, List.mem_cons_of_mem _ hm, h1, h2, h3⟩

theorem whereLoop_ok_resolves (jm : String → String) (l : List (String × String)) :
    ∀ (parts : List String) (vals : List GoVal) (ph : Nat) (P : List String) (V : List GoVal)
      (ph' : Nat), whereLoop jm l parts vals ph = Except.ok (P, V, ph') →
      ∀ k v, (k, v) ∈ l → ¬(k = "sortBy" ∨ k = "limit" ∨ k = "offset") →
        ¬ jm (stripOperatorSuffix k) = "" := by
  induction l with
  | nil =>
    intro _ _ _ _ _ _ _ k v hm
    exact absurd hm (by simp)
  | cons kv rest ih =>
    obtain ⟨key, value⟩ := kv
    intro parts vals ph P V ph' h k v hm hres
    by_cases hresk : key = "sortBy" ∨ key = "limit" ∨ key = "offset"
    · rw [whereLoop_cons_reserved _ _ _ _ _ _ _ hresk] at h
      rcases List.mem_cons.mp hm with hm | hm
      · rw [Prod.mk.injEq] at hm
        exact absurd hresk (hm.1 ▸ hres)
      · exact ih _ _ _ _ _ _ h k v hm hres
    · by_cases hk : jm (stripOperatorSuffix key) = ""
      · rw [whereLoop_cons_bad _ _ _ _ _ _ _ hresk hk] at h
        exact absurd h (by simp)
      · rcases List.mem_cons.mp hm with hm | hm
        · rw [Prod.mk.injEq] at hm
          rw [hm.1]
          exact hk
        · by_cases hin : (parseSuffix key value).1 = "IN"
          · rw [whereLoop_cons_in _ _ _ _ _ _ _ hresk hk hin] at h
            exact ih _ _ _ _ _ _ h k v hm hres
          · rw [whereLoop_cons_binop _ _ _ _ _ _ _ hresk hk hin] at h
            exact ih _ _ _ _ _ _ h k v hm hres
theorem buildWhereClause_ok (qp : List (String × String)) (ph0 : Nat) (jm : String → String)
    (w : String) (vals : List GoVal) (ph : Nat)
    (h : buildWhereClause qp ph0 jm = Except.ok (w, vals, ph)) :
    ∃ parts, whereLoop jm qp [] [] ph0 = Except.ok (parts, vals, ph) ∧
      w = if parts.length > 0 then "WHERE " ++ String.intercalate " AND " parts else "" := by
  unfold buildWhereClause at h
  cases hw : whereLoop jm qp [] [] ph0 with
  | error e => rw [hw] at h; exact absurd h (by simp)
  | ok t =>
    obtain ⟨parts, vals0, ph1⟩ := t
    rw [hw] at h
    simp only [Except.ok.injEq, Prod.mk.injEq] at h
    obtain ⟨h1, h2, h3⟩ := h
    subst h2
    subst h3
    exact ⟨parts, rfl, h1.symm⟩

theorem buildWhereClause_err (qp : List (String × String)) (ph0 : Nat) (jm : String → String)
    (e : String) (h : whereLoop jm qp [] [] ph0 = Except.error e) :
    buildWhereClause qp ph0 jm = Except.error e := by
  unfold buildWhereClause
  rw [h]

theorem buildQueryClauses_err_where (qp : List (String × String)) (m : Model) (e : String)
    (h : buildWhereClause qp 1 (MapJsonTagsToDB m) = Except.error e) :
    buildQueryClauses qp m = Except.error e := by
  simp only [buildQueryClauses]
  rw [h]

theorem buildQueryClauses_ok (qp : List (String × String)) (m : Model) (c : String)
    (vs : List GoVal) (h : buildQueryClauses qp m = Except.ok (c, vs)) :
    ∃ w wvals ph s o limit offset,
      buildWhereClause qp 1 (MapJsonTagsToDB m) = Except.ok (w, wvals, ph) ∧
      buildSortingClause qp (MapJsonTagsToDB m) = Except.ok (s, o) ∧
      buildPaginationClause qp = Except.ok (limit, offset) ∧
      vs = wvals ++ [GoVal.int limit, GoVal.int offset] ∧
      c = if w ≠ "" then
            w ++ " " ++ ("ORDER BY " ++ s ++ " " ++ o) ++ " " ++
              ("LIMIT $" ++ toString ph ++ " OFFSET $" ++ toString (ph + 1))
          else ("ORDER BY " ++ s ++ " " ++ o) ++ " " ++
              ("LIMIT $" ++ toString ph ++ " OFFSET $" ++ toString (ph + 1)) := by
  simp only [buildQueryClauses] at h
  cases hw : buildWhereClause qp 1 (MapJsonTagsToDB m) with
  | error e => rw [hw] at h; exact absurd h (by simp)
  | ok t =>
    obtain ⟨w, wvals, ph⟩ := t
    rw [hw] at h
    cases hs : buildSortingClause qp (MapJsonTagsToDB m) with
    | error e => rw [hs] at h; exact absurd h (by simp)
    | ok st =>
      obtain ⟨s, o⟩ := st
      rw [hs] at h
      cases hp : buildPaginationClause qp with
      | error e => rw [hp] at h; exact absurd h (by simp)
      | ok lo =>
        obtain ⟨limit, offset⟩ := lo
        rw [hp] at h
        simp only [Except.ok.injEq, Prod.mk.injEq] at h
        exact ⟨w, wvals, ph, s, o, limit, offset, rfl, rfl, rfl, h.2.symm, h.1.symm⟩

theorem buildSortingClause_eq (qp : List (String × String)) (jm : String → String) :
    buildSortingClause qp jm =
      if jm (effectiveSortKey (mapGet qp "sortBy")) = "" then
        Except.error ("invalid sort value: " ++ effectiveSortKey (mapGet qp "sortBy"))
      else
        Except.ok (jm (effectiveSortKey (mapGet qp "sortBy")),
          if strStartsWithDash (mapGet qp "sortBy") then "DESC" else "ASC") := by
  simp only [buildSortingClause, validateQueryParam, effectiveSortKey]
  split_ifs <;> rfl

theorem paginationLimit_none (qp : List (String × String)) (h : mapGetOpt qp "limit" = none) :
    paginationLimit qp = Except.ok 10 := by
  simp [paginationLimit, h]

theorem paginationLimit_some (qp : List (String × String)) (s : String)
    (h : mapGetOpt qp "limit" = some s) :
    paginationLimit qp =
      match goAtoi s with
      | none => Except.error "pagination err; limit must be a number"
      | some v => Except.ok v := by
  simp [paginationLimit, h]

theorem paginationOffset_none (qp : List (String × String)) (h : mapGetOpt qp "offset" = none) :
    paginationOffset qp = Except.ok 0 := by
  simp [paginationOffset, h]

theorem paginationOffset_some (qp : List (String × String)) (s : String)
    (h : mapGetOpt qp "offset" = some s) :
    paginationOffset qp =
      match goAtoi s with
      | none => Except.error "pagination err; offset must be a number"
      | some v => Except.ok v := by
  simp [paginationOffset, h]

/-! ### Claim theorems and witnesses -/

theorem paginationLimit_err (qp : List (String × String)) (e : String)
    (h : paginationLimit qp = Except.error e) :
    e = "pagination err; limit must be a number" := by
  unfold paginationLimit at h
  cases hm : mapGetOpt qp "limit" with
  | none => simp [hm] at h
  | some s =>
    simp only [hm] at h
    cases ha : goAtoi s with
    | none =>
      simp only [ha, Except.error.injEq] at h
      exact h.symm
    | some v => simp [ha] at h

/-- C2: for every model type, the number and left-to-right order of column
names in the SELECT list that `GetModelByID` builds from
`GetColumnNames (m, false)` equals exactly the number and order of field
slots (addressable field pointers, in struct declaration order) that
`ScanRowToModel` passes to the row-scanning primitive: column `i` is the
db tag of slot `i`. -/
theorem select_list_matches_scan_slots (m : Model) :
    GetColumnNames m false = (ScanRowToModelSlots m).map Field.dbTag ∧
    (GetColumnNames m false).length = (ScanRowToModelSlots m).length ∧
    GetModelByIDQuery m =
      "SELECT " ++ String.intercalate ", " ((ScanRowToModelSlots m).map Field.dbTag) ++
        " FROM " ++ m.tableName ++ " WHERE id = $1" := by
  have h : GetColumnNames m false = (ScanRowToModelSlots m).map Field.dbTag := by
    simp [GetColumnNames, ScanRowToModelSlots]
  exact ⟨h, by rw [h]; simp, by rw [GetModelByIDQuery, h]⟩

/-- C8: for every query-parameter map, the effective limit is 10 and the
effective offset is 0 when the respective key is absent; and whenever a
`limit` or `offset` key is present but its value does not parse as an
integer, clause construction fails with the InvalidPagination error (the
`pagination err; ... must be a number` message of the Go code). -/
theorem pagination_defaults_and_invalid (qp : List (String × String)) :
    (mapGetOpt qp "limit" = none → mapGetOpt qp "offset" = none →
      buildPaginationClause qp = Except.ok (10, 0)) ∧
    (∀ s o, mapGetOpt qp "limit" = none → mapGetOpt qp "offset" = some s →
      goAtoi s = some o → buildPaginationClause qp = Except.ok (10, o)) ∧
    (∀ s l, mapGetOpt qp "limit" = some s → goAtoi s = some l →
      mapGetOpt qp "offset" = none → buildPaginationClause qp = Except.ok (l, 0)) ∧
    (∀ s, mapGetOpt qp "limit" = some s → goAtoi s = none →
      buildPaginationClause qp = Except.error "pagination err; limit must be a number") ∧
    (∀ s, mapGetOpt qp "offset" = some s → goAtoi s = none →
      ∃ e, buildPaginationClause qp = Except.error e ∧
        (e = "pagination err; limit must be a number" ∨
         e = "pagination err; offset must be a number")) := by
  refine ⟨?_, ?_, ?_, ?_, ?_⟩
  · intro h1 h2
    simp [buildPaginationClause, paginationLimit_none qp h1, paginationOffset_none qp h2]
  · intro s o h1 h2 h3
    simp [buildPaginationClause, paginationLimit_none qp h1, paginationOffset_some qp s h2, h3]
  · intro s l h1 h2 h3
    simp [buildPaginationClause, paginationLimit_some qp s h1, h2, paginationOffset_none qp h3]
  · intro s h1 h2
    simp [buildPaginationClause, paginationLimit_some qp s h1, h2]
  · intro s h1 h2
    cases hl : paginationLimit qp with
    | error e =>
      exact ⟨e, by simp [buildPaginationClause, hl], Or.inl (paginationLimit_err qp e hl)⟩
    | ok v =>
      exact ⟨"pagination err; offset must be a number",
        by simp [buildPaginationClause, hl, paginationOffset_some qp s h1, h2], Or.inr rfl⟩
/-- C10: `buildPaginationClause` fails if and only if a present `limit` or
`offset` value does not parse as an integer; zero and negative values are
accepted without any range check, the parsed integer is returned
unchanged, and through `buildQueryClauses` it is bound as the
LIMIT/OFFSET parameter. -/
theorem pagination_fails_iff_nonint (qp : List (String × String)) :
    ((∃ e, buildPaginationClause qp = Except.error e) ↔
      ((∃ s, mapGetOpt qp "limit" = some s ∧ goAtoi s = none) ∨
       (∃ s, mapGetOpt qp "offset" = some s ∧ goAtoi s = none))) ∧
    (∀ ls l os o, mapGetOpt qp "limit" = some ls → goAtoi ls = some l →
      mapGetOpt qp "offset" = some os → goAtoi os = some o →
      buildPaginationClause qp = Except.ok (l, o)) ∧
    (∀ m c vs ls l os o, buildQueryClauses qp m = Except.ok (c, vs) →
      mapGetOpt qp "limit" = some ls → goAtoi ls = some l →
      mapGetOpt qp "offset" = some os → goAtoi os = some o →
      ∃ wvals, vs = wvals ++ [GoVal.int l, GoVal.int o]) := by
  have hok : ∀ ls l os o, mapGetOpt qp "limit" = some ls → goAtoi ls = some l →
      mapGetOpt qp "offset" = some os → goAtoi os = some o →
      buildPaginationClause qp = Except.ok (l, o) := by
    intro ls l os o h1 h2 h3 h4
    simp [buildPaginationClause, paginationLimit_some qp ls h1, h2,
      paginationOffset_some qp os h3, h4]
  refine ⟨⟨?_, ?_⟩, hok, ?_⟩
  · rintro ⟨e, he⟩
    cases hm : mapGetOpt qp "limit" with
    | some s =>
      cases ha : goAtoi s with
      | none => exact Or.inl ⟨s, rfl, ha⟩
      | some v =>
        cases hmo : mapGetOpt qp "offset" with
        | none =>
          have hco : buildPaginationClause qp = Except.ok (v, 0) := by
            simp [buildPaginationClause, paginationLimit_some qp s hm, ha,
              paginationOffset_none qp hmo]
          rw [hco] at he
          exact absurd he (by simp)
        | some so =>
          cases hao : goAtoi so with
          | none => exact Or.inr ⟨so, rfl, hao⟩
          | some vo =>
            have hco := hok s v so vo hm ha hmo hao
            rw [hco] at he
            exact absurd he (by simp)
    | none =>
      cases hmo : mapGetOpt qp "offset" with
      | none =>
        have hco : buildPaginationClause qp = Except.ok (10, 0) := by
          simp [buildPaginationClause, paginationLimit_none qp hm, paginationOffset_none qp hmo]
        rw [hco] at he
        exact absurd he (by simp)
      | some so =>
        cases hao : goAtoi so with
        | none => exact Or.inr ⟨so, rfl, hao⟩
        | some vo =>
          have hco : buildPaginationClause qp = Except.ok (10, vo) := by
            simp [buildPaginationClause, paginationLimit_none qp hm,
              paginationOffset_some qp so hmo, hao]
          rw [hco] at he
          exact absurd he (by simp)
  · rintro (⟨s, hm, ha⟩ | ⟨s, hm, ha⟩)
    · exact ⟨"pagination err; limit must be a number",
        by simp [buildPaginationClause, paginationLimit_some qp s hm, ha]⟩
    · cases hl : paginationLimit qp with
      | error e => exact ⟨e, by simp [buildPaginationClause, hl]⟩
      | ok v =>
        exact ⟨"pagination err; offset must be a number",
          by simp [buildPaginationClause, hl, paginationOffset_some qp s hm, ha]⟩
  · intro m c vs ls l os o h h1 h2 h3 h4
    obtain ⟨w, wvals, ph, s', o', limit, offset, _, _, hp, hv, _⟩ :=
      buildQueryClauses_ok qp m c vs h
    rw [hok ls l os o h1 h2 h3 h4] at hp
    simp only [Except.ok.injEq, Prod.mk.injEq] at hp
    exact ⟨wvals, by rw [hv, hp.1, hp.2]⟩
theorem handleInOperator_eq_err (key value : String) (ph : Nat) (parts : List String)
    (vals : List GoVal) (jm : String → String) (hc : jm (trimSuffix key "_anyOf") = "") :
    handleInOperator key value ph parts vals jm =
      Except.error ("invalid query parameter: " ++ trimSuffix key "_anyOf") := by
  simp [handleInOperator, inLoop_eq, validateQueryParam, hc]

/-- C3: for every query-parameter map containing at least one non-reserved
key whose operator-suffix-stripped form does not resolve via the
external-to-column mapping, `buildQueryClauses` fails with the
InvalidQueryParameter error naming that (stripped) key; being an
`Except.error`, the result carries no clause text and no bind values at
all — no partial WHERE clause is ever returned. -/
theorem unresolved_key_all_or_nothing (qp : List (String × String)) (m : Model)
    (hbad : ∃ p ∈ qp, ¬(p.1 = "sortBy" ∨ p.1 = "limit" ∨ p.1 = "offset") ∧
      MapJsonTagsToDB m (stripOperatorSuffix p.1) = "") :
    ∃ k v, (k, v) ∈ qp ∧ ¬(k = "sortBy" ∨ k = "limit" ∨ k = "offset") ∧
      MapJsonTagsToDB m (stripOperatorSuffix k) = "" ∧
      buildQueryClauses qp m =
        Except.error ("invalid query parameter: " ++ stripOperatorSuffix k) := by
  cases hw : whereLoop (MapJsonTagsToDB m) qp [] [] 1 with
  | ok t =>
    obtain ⟨p, hp, hres, hk⟩ := hbad
    obtain ⟨P, V, ph⟩ := t
    have hmem : (p.1, p.2) ∈ qp := by rw [Prod.mk.eta]; exact hp
    exact absurd hk
      (whereLoop_ok_resolves (MapJsonTagsToDB m) qp [] [] 1 P V ph hw p.1 p.2 hmem hres)
  | error e =>
    obtain ⟨k, v, hm, h1, h2, h3⟩ := whereLoop_err (MapJsonTagsToDB m) qp [] [] 1 e hw
    rw [h3] at hw
    exact ⟨k, v, hm, h1, h2,
      buildQueryClauses_err_where qp m _ (buildWhereClause_err qp 1 _ _ hw)⟩

theorem convert_never_str_when_numeric (v s : String)
    (h : convertValueIfNumeric v = GoVal.str s) :
    s = v ∧ goAtoi v = none ∧ goParseFloatOk v = false := by
  unfold convertValueIfNumeric at h
  cases ha : goAtoi v with
  | some n => rw [ha] at h; exact absurd h (by simp)
  | none =>
    rw [ha] at h
    by_cases hf : goParseFloatOk v
    · rw [if_pos hf] at h; exact absurd h (by simp)
    · rw [if_neg hf] at h
      simp only [GoVal.str.injEq] at h
      exact ⟨h.symm, rfl, by simp [hf]⟩

/-- C6: every bound filter value, including each individual element of an
`_anyOf` comma-separated list, is independently coerced before binding:
if it parses as an integer the integer is bound, otherwise if it parses
as a floating-point number the float is bound, otherwise the original
string is bound; a raw string is never bound when a numeric parse
succeeds. -/
theorem values_independently_coerced :
    (∀ value n, goAtoi value = some n → convertValueIfNumeric value = GoVal.int n) ∧
    (∀ value, goAtoi value = none → goParseFloatOk value = true →
      convertValueIfNumeric value = GoVal.float value) ∧
    (∀ value, goAtoi value = none → goParseFloatOk value = false →
      convertValueIfNumeric value = GoVal.str value) ∧
    (∀ key value ph parts vals jm P V ph',
      handleInOperator key value ph parts vals jm = Except.ok (P, V, ph') →
      V = vals ++ (splitComma value).map convertValueIfNumeric) ∧
    (∀ qp ph jm w V ph', buildWhereClause qp ph jm = Except.ok (w, V, ph') →
      ∀ s, GoVal.str s ∈ V → goAtoi s = none ∧ goParseFloatOk s = false) := by
  refine ⟨?_, ?_, ?_, ?_, ?_⟩
  · intro value n h
    simp [convertValueIfNumeric, h]
  · intro value h hf
    simp [convertValueIfNumeric, h, hf]
  · intro value h hf
    simp [convertValueIfNumeric, h, hf]
  · intro key value ph parts vals jm P V ph' h
    by_cases hc : jm (trimSuffix key "_anyOf") = ""
    · rw [handleInOperator_eq_err key value ph parts vals jm hc] at h
      exact absurd h (by simp)
    · rw [handleInOperator_eq_ok key value ph parts vals jm hc] at h
      simp only [Except.ok.injEq, Prod.mk.injEq] at h
      exact h.2.1.symm
  · intro qp ph jm w V ph' h s hs
    obtain ⟨parts, hwl, _⟩ := buildWhereClause_ok qp ph jm w V ph' h
    obtain ⟨dP, dV, _, h2, _, _, h5⟩ := whereLoop_ok jm qp [] [] ph parts V ph' hwl
    rw [h2, List.nil_append] at hs
    obtain ⟨p, _, hx⟩ := h5 _ hs
    rcases hx with hx | hx | ⟨e, _, hx⟩ <;>
      · obtain ⟨hsv, ha, hf⟩ := convert_never_str_when_numeric _ _ hx.symm
        rw [hsv]
        exact ⟨ha, hf⟩

/-- C4: for every query-parameter map on which `buildQueryClauses` succeeds
with `n` bind values produced by the WHERE clause, the pagination
fragment is exactly `LIMIT $(n+1) OFFSET $(n+2)` — numbering continues
contiguously from the last WHERE placeholder — and the bind list has
length `n + 2` with the limit at 1-indexed position `n + 1` and the
offset at position `n + 2`. -/
theorem pagination_placeholders_contiguous (qp : List (String × String)) (m : Model)
    (c : String) (vs : List GoVal) (h : buildQueryClauses qp m = Except.ok (c, vs)) :
    ∃ w wvals limit offset,
      buildWhereClause qp 1 (MapJsonTagsToDB m) = Except.ok (w, wvals, wvals.length + 1) ∧
      buildPaginationClause qp = Except.ok (limit, offset) ∧
      vs = wvals ++ [GoVal.int limit, GoVal.int offset] ∧
      vs.length = wvals.length + 2 ∧
      vs[wvals.length]? = some (GoVal.int limit) ∧
      vs[wvals.length + 1]? = some (GoVal.int offset) ∧
      ∃ pre, c = pre ++ ("LIMIT $" ++ toString (wvals.length + 1) ++ " OFFSET $" ++
        toString (wvals.length + 2)) := by
  obtain ⟨w, wvals, ph, s, o, limit, offset, hw, hs, hp, hv, hc⟩ :=
    buildQueryClauses_ok qp m c vs h
  obtain ⟨parts, hwl, _⟩ := buildWhereClause_ok qp 1 _ w wvals ph hw
  obtain ⟨dP, dV, _, h2, h3, _, _⟩ := whereLoop_ok _ qp [] [] 1 parts wvals ph hwl
  have hlen : ph = wvals.length + 1 := by
    rw [h2, List.nil_append, h3]
    omega
  rw [hlen] at hw hc
  refine ⟨w, wvals, limit, offset, hw, hp, hv, by rw [hv]; simp, ?_, ?_, ?_⟩
  · rw [hv]
    rw [List.getElem?_append_right (by omega)]
    simp
  · rw [hv]
    rw [List.getElem?_append_right (by omega)]
    simp
  · by_cases hw0 : w ≠ ""
    · rw [if_pos hw0] at hc
      exact ⟨w ++ " " ++ ("ORDER BY " ++ s ++ " " ++ o) ++ " ", hc⟩
    · rw [if_neg hw0] at hc
      exact ⟨("ORDER BY " ++ s ++ " " ++ o) ++ " ", hc⟩
/-- C7: for every query-parameter map: a `sortBy` value prefixed with `-`
sorts by the mapped column of the stripped key DESC; without the prefix,
ASC; an absent (empty) `sortBy` sorts by the identifier column ASC; and
an unresolvable (possibly stripped) sort key fails with the
InvalidQueryParameter-kind error (`invalid sort value: <key>`). -/
theorem sorting_direction_and_default (qp : List (String × String)) (jm : String → String) :
    (strStartsWithDash (mapGet qp "sortBy") = true →
      ¬ trimLeadingDash (mapGet qp "sortBy") = "" →
      ¬ jm (trimLeadingDash (mapGet qp "sortBy")) = "" →
      buildSortingClause qp jm =
        Except.ok (jm (trimLeadingDash (mapGet qp "sortBy")), "DESC")) ∧
    (strStartsWithDash (mapGet qp "sortBy") = false →
      ¬ mapGet qp "sortBy" = "" → ¬ jm (mapGet qp "sortBy") = "" →
      buildSortingClause qp jm = Except.ok (jm (mapGet qp "sortBy"), "ASC")) ∧
    (mapGet qp "sortBy" = "" → ¬ jm "id" = "" →
      buildSortingClause qp jm = Except.ok (jm "id", "ASC")) ∧
    (jm (effectiveSortKey (mapGet qp "sortBy")) = "" →
      buildSortingClause qp jm =
        Except.error ("invalid sort value: " ++ effectiveSortKey (mapGet qp "sortBy"))) := by
  rw [buildSortingClause_eq]
  refine ⟨?_, ?_, ?_, ?_⟩
  · intro hd hne hjm
    have he : effectiveSortKey (mapGet qp "sortBy") = trimLeadingDash (mapGet qp "sortBy") := by
      simp [effectiveSortKey, hd, hne]
    rw [he, if_neg hjm, hd]
    simp
  · intro hd hne hjm
    have he : effectiveSortKey (mapGet qp "sortBy") = mapGet qp "sortBy" := by
      simp [effectiveSortKey, hd, hne]
    rw [he, if_neg hjm, hd]
    simp
  · intro hes hjm
    have hd : strStartsWithDash (mapGet qp "sortBy") = false := by
      rw [hes]
      rfl
    have he : effectiveSortKey (mapGet qp "sortBy") = "id" := by
      rw [hes]
      decide
    rw [he, if_neg hjm, hd]
    simp
  · intro hjm
    rw [if_pos hjm]

/-- C9: for every query-parameter map whose `sortBy` value is exactly `-`,
clause construction succeeds and produces ORDER BY the identifier column
DESC: the descending marker applies to the default identifier sort
rather than being rejected. -/
theorem sortBy_dash_alone_sorts_id_desc (qp : List (String × String)) (jm : String → String)
    (h : mapGet qp "sortBy" = "-") (hid : ¬ jm "id" = "") :
    buildSortingClause qp jm = Except.ok (jm "id", "DESC") := by
  rw [buildSortingClause_eq, h]
  have h1 : effectiveSortKey "-" = "id" := by rfl
  have h2 : strStartsWithDash "-" = true := by rfl
  rw [h1, if_neg hid, h2]
  simp
/-- C1: for every query-parameter map and model, the clause text produced
by `buildQueryClauses` consists of WHERE fragments built only from
trusted mapped column identifiers, fixed SQL operators and placeholder
tokens, an ORDER BY over a trusted mapped column with a fixed direction
keyword, and a LIMIT/OFFSET fragment with numeric placeholders; no
query-parameter value string is interpolated — every user-derived value
appears only in the returned bind-value list. -/
theorem clause_text_only_trusted (qp : List (String × String)) (m : Model) (c : String)
    (vs : List GoVal) (h : buildQueryClauses qp m = Except.ok (c, vs)) :
    ∃ frags s o wvals limit offset,
      (∀ f ∈ frags, TrustedFragment (MapJsonTagsToDB m) f) ∧
      TrustedColumn (MapJsonTagsToDB m) s ∧ (o = "ASC" ∨ o = "DESC") ∧
      vs = wvals ++ [GoVal.int limit, GoVal.int offset] ∧
      (∀ x ∈ wvals, BindDerived qp x) ∧
      c = if frags.length > 0 then
            ("WHERE " ++ String.intercalate " AND " frags) ++ " " ++
              ("ORDER BY " ++ s ++ " " ++ o) ++ " " ++
              ("LIMIT $" ++ toString (wvals.length + 1) ++ " OFFSET $" ++
                toString (wvals.length + 2))
          else ("ORDER BY " ++ s ++ " " ++ o) ++ " " ++
              ("LIMIT $" ++ toString (wvals.length + 1) ++ " OFFSET $" ++
                toString (wvals.length + 2)) := by
  obtain ⟨w, wvals, ph, s, o, limit, offset, hw, hs, hp, hv, hc⟩ :=
    buildQueryClauses_ok qp m c vs h
  obtain ⟨parts, hwl, hwdef⟩ := buildWhereClause_ok qp 1 _ w wvals ph hw
  obtain ⟨dP, dV, h1, h2, h3, h4, h5⟩ := whereLoop_ok _ qp [] [] 1 parts wvals ph hwl
  rw [List.nil_append] at h1 h2
  subst h1
  subst h2
  have hlen : ph = wvals.length + 1 := by omega
  rw [hlen] at hc
  rw [buildSortingClause_eq] at hs
  by_cases hsk : MapJsonTagsToDB m (effectiveSortKey (mapGet qp "sortBy")) = ""
  · rw [if_pos hsk] at hs
    exact absurd hs (by simp)
  · rw [if_neg hsk] at hs
    simp only [Except.ok.injEq, Prod.mk.injEq] at hs
    obtain ⟨hso, hoo⟩ := hs
    refine ⟨parts, s, o, wvals, limit, offset, h4, ?_, ?_, hv, h5, ?_⟩
    · rw [← hso]
      exact ⟨hsk, _, rfl⟩
    · rw [← hoo]
      by_cases hd : strStartsWithDash (mapGet qp "sortBy") = true
      · rw [if_pos hd]
        exact Or.inr rfl
      · rw [if_neg hd]
        exact Or.inl rfl
    · by_cases hp0 : parts.length > 0
      · rw [if_pos hp0] at hwdef
        have hwne : w ≠ "" := by
          rw [hwdef]
          exact strAppendNeNil _ _ (by decide)
        rw [if_pos hwne, hwdef] at hc
        rw [if_pos hp0]
        exact hc
      · rw [if_neg hp0] at hwdef
        have hwe : ¬ w ≠ "" := by
          rw [hwdef]
          simp
        rw [if_neg hwe] at hc
        rw [if_neg hp0]
        exact hc
theorem strAppendAssoc (a b c : String) : a ++ b ++ c = a ++ (b ++ c) := by
  cases a with | mk la =>
  cases b with | mk lb =>
  cases c with | mk lc =>
  show String.mk ((la ++ lb) ++ lc) = String.mk (la ++ (lb ++ lc))
  rw [List.append_assoc]

theorem strAppend5 (col a b c t : String) :
    col ++ a ++ b ++ c ++ t = col ++ (a ++ b ++ c) ++ t := by
  rw [strAppendAssoc col a b, strAppendAssoc col (a ++ b) c]

theorem buildWhereClause_of_loop (qp : List (String × String)) (ph0 : Nat)
    (jm : String → String) (P : List String) (V : List GoVal) (ph' : Nat)
    (h : whereLoop jm qp [] [] ph0 = Except.ok (P, V, ph')) :
    buildWhereClause qp ph0 jm =
      Except.ok (if P.length > 0 then "WHERE " ++ String.intercalate " AND " P else "",
        V, ph') := by
  unfold buildWhereClause
  rw [h]

theorem buildWhereClause_single_binop (key value : String) (jm : String → String) (ph : Nat)
    (hres : ¬(key = "sortBy" ∨ key = "limit" ∨ key = "offset"))
    (hk : ¬ jm (stripOperatorSuffix key) = "")
    (hin : ¬ (parseSuffix key value).1 = "IN") :
    buildWhereClause [(key, value)] ph jm =
      Except.ok ("WHERE " ++ (jm (stripOperatorSuffix key) ++ " " ++
          (parseSuffix key value).1 ++ " $" ++ toString ph),
        [convertValueIfNumeric ((parseSuffix key value).2.2)], ph + 1) := by
  have hloop : whereLoop jm [(key, value)] [] [] ph =
      Except.ok ([jm (stripOperatorSuffix key) ++ " " ++ (parseSuffix key value).1 ++ " $" ++
        toString ph], [convertValueIfNumeric ((parseSuffix key value).2.2)], ph + 1) := by
    rw [whereLoop_cons_binop jm key value [] [] [] ph hres hk hin]
    simp [whereLoop]
  rw [buildWhereClause_of_loop [(key, value)] ph jm _ _ _ hloop]
  simp [intercalate_singleton]

theorem buildWhereClause_single_in (key value : String) (jm : String → String) (ph : Nat)
    (hres : ¬(key = "sortBy" ∨ key = "limit" ∨ key = "offset"))
    (hk : ¬ jm (stripOperatorSuffix key) = "")
    (hin : (parseSuffix key value).1 = "IN") :
    buildWhereClause [(key, value)] ph jm =
      Except.ok ("WHERE " ++ (jm (trimSuffix key "_anyOf") ++ " IN (" ++
          String.intercalate "," (placeholdersFrom ph (splitComma value).length) ++ ")"),
        (splitComma value).map convertValueIfNumeric, ph + (splitComma value).length) := by
  have hloop : whereLoop jm [(key, value)] [] [] ph =
      Except.ok ([jm (trimSuffix key "_anyOf") ++ " IN (" ++
          String.intercalate "," (placeholdersFrom ph (splitComma value).length) ++ ")"],
        (splitComma value).map convertValueIfNumeric, ph + (splitComma value).length) := by
    rw [whereLoop_cons_in jm key value [] [] [] ph hres hk hin]
    simp [whereLoop]
  rw [buildWhereClause_of_loop [(key, value)] ph jm _ _ _ hloop]
  simp [intercalate_singleton]
/-- C5: for every filter key that resolves to a column, the WHERE fragment
uses the SQL operator determined by the key's suffix (none `=`, `_ne`
`!=`, `_lt` `<`, `_gt` `>`, `_lte` `<=`, `_gte` `>=`, `_contains` `LIKE`
with the bound value wrapped as `%value%`, `_anyOf` `IN (...)` with the
value split on commas and exactly one coerced bind parameter and one
placeholder per element), placeholder numbers contiguous from any
starting index: the built clause equals the spec-side plan. -/
theorem where_filter_follows_spec_table (key value : String) (jm : String → String) (ph : Nat)
    (hres : ¬(key = "sortBy" ∨ key = "limit" ∨ key = "offset"))
    (hk : ¬ jm (stripOperatorSuffix key) = "") :
    buildWhereClause [(key, value)] ph jm =
      Except.ok ("WHERE " ++ (specFilterPlan key value jm ph).1,
        (specFilterPlan key value jm ph).2.1, (specFilterPlan key value jm ph).2.2) := by
  unfold specFilterPlan
  split_ifs with h1 h2 h3 h4 h5 h6 h7
  · have hps : parseSuffix key value = ("!=", trimSuffix key "_ne", value) := by
      simp [parseSuffix, h1]
    have hst : stripOperatorSuffix key = trimSuffix key "_ne" := by
      simp [stripOperatorSuffix, parseSuffix, h1]
    rw [buildWhereClause_single_binop key value jm ph hres hk (by rw [hps]; simp)]
    simp only [hps, hst]
    rw [strAppend5]
    have e : (" " : String) ++ "!=" ++ " $" = " != $" := rfl
    rw [e]
  · have hps : parseSuffix key value = ("<", trimSuffix key "_lt", value) := by
      simp [parseSuffix, h1, h2]
    have hst : stripOperatorSuffix key = trimSuffix key "_lt" := by
      simp [stripOperatorSuffix, parseSuffix, h1, h2]
    rw [buildWhereClause_single_binop key value jm ph hres hk (by rw [hps]; simp)]
    simp only [hps, hst]
    rw [strAppend5]
    have e : (" " : String) ++ "<" ++ " $" = " < $" := rfl
    rw [e]
  · have hps : parseSuffix key value = (">", trimSuffix key "_gt", value) := by
      simp [parseSuffix, h1, h2, h3]
    have hst : stripOperatorSuffix key = trimSuffix key "_gt" := by
      simp [stripOperatorSuffix, parseSuffix, h1, h2, h3]
    rw [buildWhereClause_single_binop key value jm ph hres hk (by rw [hps]; simp)]
    simp only [hps, hst]
    rw [strAppend5]
    have e : (" " : String) ++ ">" ++ " $" = " > $" := rfl
    rw [e]
  · have hps : parseSuffix key value = ("<=", trimSuffix key "_lte", value) := by
      simp [parseSuffix, h1, h2, h3, h4]
    have hst : stripOperatorSuffix key = trimSuffix key "_lte" := by
      simp [stripOperatorSuffix, parseSuffix, h1, h2, h3, h4]
    rw [buildWhereClause_single_binop key value jm ph hres hk (by rw [hps]; simp)]
    simp only [hps, hst]
    rw [strAppend5]
    have e : (" " : String) ++ "<=" ++ " $" = " <= $" := rfl
    rw [e]
  · have hps : parseSuffix key value = (">=", trimSuffix key "_gte", value) := by
      simp [parseSuffix, h1, h2, h3, h4, h5]
    have hst : stripOperatorSuffix key = trimSuffix key "_gte" := by
      simp [stripOperatorSuffix, parseSuffix, h1, h2, h3, h4, h5]
    rw [buildWhereClause_single_binop key value jm ph hres hk (by rw [hps]; simp)]
    simp only [hps, hst]
    rw [strAppend5]
    have e : (" " : String) ++ ">=" ++ " $" = " >= $" := rfl
    rw [e]
  · have hps : parseSuffix key value =
        ("LIKE", trimSuffix key "_contains", "%" ++ value ++ "%") := by
      simp [parseSuffix, h1, h2, h3, h4, h5, h6]
    have hst : stripOperatorSuffix key = trimSuffix key "_contains" := by
      simp [stripOperatorSuffix, parseSuffix, h1, h2, h3, h4, h5, h6]
    rw [buildWhereClause_single_binop key value jm ph hres hk (by rw [hps]; simp)]
    simp only [hps, hst]
    rw [strAppend5]
    have e : (" " : String) ++ "LIKE" ++ " $" = " LIKE $" := rfl
    rw [e]
  · have hps : parseSuffix key value = ("IN", trimSuffix key "_anyOf", value) := by
      simp [parseSuffix, h1, h2, h3, h4, h5, h6, h7]
    rw [buildWhereClause_single_in key value jm ph hres hk (by rw [hps])]
  · have hps : parseSuffix key value = ("=", key, value) := by
      simp [parseSuffix, h1, h2, h3, h4, h5, h6, h7]
    have hst : stripOperatorSuffix key = key := by
      simp [stripOperatorSuffix, parseSuffix, h1, h2, h3, h4, h5, h6, h7]
    rw [buildWhereClause_single_binop key value jm ph hres hk (by rw [hps]; simp)]
    simp only [hps, hst]
    rw [strAppend5]
    have e : (" " : String) ++ "=" ++ " $" = " = $" := rfl
    rw [e]
theorem clause_text_only_trusted_witness :
    ∃ frags s o wvals limit offset,
      (∀ f ∈ frags, TrustedFragment (MapJsonTagsToDB Event) f) ∧
      TrustedColumn (MapJsonTagsToDB Event) s ∧ (o = "ASC" ∨ o = "DESC") ∧
      [GoVal.int 10, GoVal.int 0] = wvals ++ [GoVal.int limit, GoVal.int offset] ∧
      (∀ x ∈ wvals, BindDerived ([] : List (String × String)) x) ∧
      "ORDER BY id ASC LIMIT $1 OFFSET $2" =
        if frags.length > 0 then
          ("WHERE " ++ String.intercalate " AND " frags) ++ " " ++
            ("ORDER BY " ++ s ++ " " ++ o) ++ " " ++
            ("LIMIT $" ++ toString (wvals.length + 1) ++ " OFFSET $" ++
              toString (wvals.length + 2))
        else ("ORDER BY " ++ s ++ " " ++ o) ++ " " ++
            ("LIMIT $" ++ toString (wvals.length + 1) ++ " OFFSET $" ++
              toString (wvals.length + 2)) :=
  clause_text_only_trusted [] Event "ORDER BY id ASC LIMIT $1 OFFSET $2"
    [GoVal.int 10, GoVal.int 0] rfl

theorem unresolved_key_all_or_nothing_witness :
    ∃ k v, (k, v) ∈ [("bogus", "1")] ∧ ¬(k = "sortBy" ∨ k = "limit" ∨ k = "offset") ∧
      MapJsonTagsToDB Event (stripOperatorSuffix k) = "" ∧
      buildQueryClauses [("bogus", "1")] Event =
        Except.error ("invalid query parameter: " ++ stripOperatorSuffix k) :=
  unresolved_key_all_or_nothing [("bogus", "1")] Event (by decide)

theorem pagination_placeholders_contiguous_witness :
    ∃ w wvals limit offset,
      buildWhereClause [("name", "Foo")] 1 (MapJsonTagsToDB Event) =
        Except.ok (w, wvals, wvals.length + 1) ∧
      buildPaginationClause [("name", "Foo")] = Except.ok (limit, offset) ∧
      [GoVal.str "Foo", GoVal.int 10, GoVal.int 0] =
        wvals ++ [GoVal.int limit, GoVal.int offset] ∧
      [GoVal.str "Foo", GoVal.int 10, GoVal.int 0].length = wvals.length + 2 ∧
      [GoVal.str "Foo", GoVal.int 10, GoVal.int 0][wvals.length]? =
        some (GoVal.int limit) ∧
      [GoVal.str "Foo", GoVal.int 10, GoVal.int 0][wvals.length + 1]? =
        some (GoVal.int offset) ∧
      ∃ pre, "WHERE name = $1 ORDER BY id ASC LIMIT $2 OFFSET $3" =
        pre ++ ("LIMIT $" ++ toString (wvals.length + 1) ++ " OFFSET $" ++
          toString (wvals.length + 2)) :=
  pagination_placeholders_contiguous [("name", "Foo")] Event
    "WHERE name = $1 ORDER BY id ASC LIMIT $2 OFFSET $3"
    [GoVal.str "Foo", GoVal.int 10, GoVal.int 0] rfl

theorem where_filter_follows_spec_table_witness :
    buildWhereClause [("maxAttendees_lte", "10")] 1 (MapJsonTagsToDB Event) =
      Except.ok ("WHERE max_attendees <= $1", [GoVal.int 10], 2) := by
  have h := where_filter_follows_spec_table "maxAttendees_lte" "10" (MapJsonTagsToDB Event) 1
    (by decide) (by decide)
  rw [h]
  rfl

theorem values_independently_coerced_witness :
    convertValueIfNumeric "7" = GoVal.int 7 ∧
    convertValueIfNumeric "2.5" = GoVal.float "2.5" ∧
    convertValueIfNumeric "abc" = GoVal.str "abc" :=
  ⟨values_independently_coerced.1 "7" 7 (by decide),
   values_independently_coerced.2.1 "2.5" (by decide) (by decide),
   values_independently_coerced.2.2.1 "abc" (by decide) (by decide)⟩

theorem sorting_direction_and_default_witness :
    buildSortingClause [("sortBy", "-name")] (MapJsonTagsToDB Event) =
      Except.ok ("name", "DESC") := by
  have h := (sorting_direction_and_default [("sortBy", "-name")] (MapJsonTagsToDB Event)).1
    (by decide) (by decide) (by decide)
  rw [h]
  rfl

theorem pagination_defaults_and_invalid_witness :
    buildPaginationClause [] = Except.ok (10, 0) ∧
    buildPaginationClause [("limit", "abc")] =
      Except.error "pagination err; limit must be a number" :=
  ⟨(pagination_defaults_and_invalid []).1 (by decide) (by decide),
   (pagination_defaults_and_invalid [("limit", "abc")]).2.2.2.1 "abc" (by decide) (by decide)⟩

theorem sortBy_dash_alone_sorts_id_desc_witness :
    buildSortingClause [("sortBy", "-")] (MapJsonTagsToDB Event) =
      Except.ok ("id", "DESC") := by
  have h := sortBy_dash_alone_sorts_id_desc [("sortBy", "-")] (MapJsonTagsToDB Event)
    (by decide) (by decide)
  rw [h]
  rfl

theorem pagination_fails_iff_nonint_witness :
    buildPaginationClause [("limit", "0"), ("offset", "-1")] = Except.ok (0, -1) :=
  (pagination_fails_iff_nonint [("limit", "0"), ("offset", "-1")]).2.1 "0" 0 "-1" (-1)
    (by decide) (by decide) (by decide) (by decide)

end EventsApp
